import Mathlib

/-!
Verification of the Produkteliste enrichment pipeline.

Shallow embedding of the Python sources:
  app/excel/io.py, app/worker/runner.py, app/worker/galaxus.py,
  app/worker/toppreise.py, app/storage/jsonbin.py.

Strings are modelled as Lean `String` / `List Char`; Python floats as `ℚ`
(the numeric literals involved are exact decimals); browser pages as explicit
structures listing the element texts the code scans; per-row exceptions as
`Except PyError`.  Character classes from the Python regexes are expressed
via code points (`Char.toNat`), which is equivalent to the character
comparisons of the source.
-/

namespace Produkteliste

/-! ### Python string primitives (io.py `normalize_header`, galaxus/toppreise `_clean`) -/

/-- Python regex `\s` / `str.split()` whitespace class (space, TAB, LF, VT, FF, CR). -/
def pyIsSpace (c : Char) : Bool :=
  c.toNat = 32 || c.toNat = 9 || c.toNat = 10 || c.toNat = 13 || c.toNat = 11 || c.toNat = 12

/-- Fuel-driven word splitter: `str.split()` with no argument (split on whitespace
runs, dropping empty pieces).  Fuel `l.length + 1` always suffices since every
recursive call consumes at least one character. -/
def pyWordsAux : Nat → List Char → List (List Char)
  | 0, _ => []
  | _, [] => []
  | fuel + 1, l =>
      let l1 := l.dropWhile pyIsSpace
      match l1 with
      | [] => []
      | c :: t =>
          (c :: t.takeWhile (fun d => !pyIsSpace d)) ::
            pyWordsAux fuel (t.dropWhile (fun d => !pyIsSpace d))

def pyWords (l : List Char) : List (List Char) := pyWordsAux (l.length + 1) l

/-- `" ".join(s.split())` at list level; identical to
`re.sub(r"\s+", " ", s).strip()` used by `_clean` in galaxus.py / toppreise.py. -/
def pyCleanL (l : List Char) : List Char := List.intercalate [' '] (pyWords l)

/-- `_clean` (galaxus.py line 13, toppreise.py line 29) and the body of
`normalize_header` (io.py line 11): trim and collapse internal whitespace. -/
def pyClean (s : String) : String := ⟨pyCleanL s.data⟩

/-- ASCII lowering, `str.lower()` on the ASCII range used by the heuristics. -/
def lowerL (l : List Char) : List Char := l.map Char.toLower

/-- List prefix test (used to build the substring test). -/
def isPrefixL : List Char → List Char → Bool
  | [], _ => true
  | _ :: _, [] => false
  | p :: ps, c :: cs => p = c && isPrefixL ps cs

/-- Python `pat in hay` substring containment. -/
def isSubstr (pat : List Char) : List Char → Bool
  | [] => pat.isEmpty
  | c :: t => isPrefixL pat (c :: t) || isSubstr pat t

/-! ### Price parsing (galaxus.py `_price_to_chf`, toppreise.py `_parse_price`) -/

/-- The apostrophe character (thousands separator), written via its code point. -/
def apos : Char := Char.ofNat 39

/-- Membership in the regex character class `[\d'.,]`
(digits 48–57, apostrophe 39, dot 46, comma 44). -/
def classChar (c : Char) : Bool :=
  (48 ≤ c.toNat && c.toNat ≤ 57) || c.toNat = 39 || c.toNat = 46 || c.toNat = 44

/-- Digit test `\d`. -/
def digitB (c : Char) : Bool := 48 ≤ c.toNat && c.toNat ≤ 57

/-- Dot test. -/
def dotB (c : Char) : Bool := c.toNat = 46

/-- `re.search(r"CHF\s*([\d'.,]+)", text)` — scan left to right for the first
position where the whole pattern matches, returning the captured group
(greedy run of class characters after `CHF` and optional whitespace). -/
def priceGroupCHF : List Char → Option (List Char)
  | 'C' :: 'H' :: 'F' :: rest =>
      let g := (rest.dropWhile pyIsSpace).takeWhile classChar
      if g.isEmpty then priceGroupCHF ('H' :: 'F' :: rest) else some g
  | _ :: rest => priceGroupCHF rest
  | [] => none

/-- `_price_to_chf` (galaxus.py lines 16–19): captured group with apostrophes
removed, or the empty string when the pattern does not match. -/
def price_to_chfL (l : List Char) : List Char :=
  match priceGroupCHF l with
  | some g => g.filter (fun c => c ≠ apos)
  | none => []

def price_to_chf (s : String) : String := ⟨price_to_chfL s.data⟩

/-- `re.search(r"([\d'.,]+)", text)` — first maximal run of class characters. -/
def numGroup : List Char → Option (List Char)
  | [] => none
  | c :: rest => if classChar c then some ((c :: rest).takeWhile classChar) else numGroup rest

/-- Value of a digit string (most significant first). -/
def digitsVal (l : List Char) : Nat := l.foldl (fun a c => 10 * a + (c.toNat - 48)) 0

/-- Python `float()` applied to a string of digits and dots (the only shapes
reachable in `_parse_price` after the replacements): defined iff there is at
least one digit and at most one dot.  The value `ip.fp` is the exact rational
`(ip * 10 ^ |fp| + fp) / 10 ^ |fp|` (floats idealised as exact decimals). -/
def pyFloatVal (l : List Char) : Option ℚ :=
  if l.all (fun c => digitB c || dotB c) = true ∧ l.countP dotB ≤ 1 ∧ l.any digitB = true then
    let ip := l.takeWhile (fun c => !dotB c)
    let fp := (l.dropWhile (fun c => !dotB c)).drop 1
    some (mkRat ((digitsVal ip * 10 ^ fp.length + digitsVal fp : Nat) : Int) (10 ^ fp.length))
  else none

/-- `_parse_price` (toppreise.py lines 32–42): `None` on empty input or no
match; otherwise the group with `'` removed and `,` mapped to `.`, fed to
`float()`, with a `None` on conversion failure. -/
def parse_priceL (l : List Char) : Option ℚ :=
  if l.isEmpty then none
  else
    match numGroup l with
    | none => none
    | some g => pyFloatVal ((g.filter (fun c => c ≠ apos)).map (fun c => if c = ',' then '.' else c))

def parse_price (s : String) : Option ℚ := parse_priceL s.data

/-! ### Exceptions

Python exceptions are modelled by their class name and message; `process_one`
formats them as `ERROR: <kind>: <msg>` (runner.py line 64). -/

structure PyError where
  name : String
  msg : String
deriving DecidableEq

def errNote (e : PyError) : String := "ERROR: " ++ e.name ++ ": " ++ e.msg

/-! ### Availability & media extractor (galaxus.py) -/

def AVAILABILITY_HINTS : List String :=
  ["geliefert", "stück", "lager", "lieferant", "morgen", "zwischen"]

/-- `any(h in low for h in AVAILABILITY_HINTS)` where `low = s.lower()`. -/
def containsHint (s : String) : Bool :=
  AVAILABILITY_HINTS.any (fun h => isSubstr h.data (lowerL s.data))

/-- One result link of the search page: its visible text and href. -/
structure Link where
  text : String
  href : String
deriving DecidableEq

/-- The parts of a rendered product page that `check_galaxus_product` scans:
per element of the `[aria-label], [title], [data-tooltip], [data-original-title]`
locator, the cleaned first non-empty attribute value delivered by
`_get_attr_if_any` (page order); the cleaned-before-use tooltip texts read by
the hover fallback (selector order); the `img` / `video` element counts; the
raw inner texts of the `li` elements; and the raw texts of the elements
matching the `text=/CHF\s*[\d'.,]+/` locator. -/
structure ProductPage where
  url : String
  attrTexts : List String
  hoverTooltips : List String
  imagesCount : Nat
  videosCount : Nat
  liTexts : List String
  priceTexts : List String

/-- `extract_availability_text` (galaxus.py lines 47–99): attribute scan over
the first 2500 candidates, then hover fallback over tooltip texts, each
requiring a hint-word match; empty string when nothing matches. -/
def extract_availability_text (page : ProductPage) : String :=
  match (page.attrTexts.take 2500).find? (fun s => !s.isEmpty && containsHint s) with
  | some s => s
  | none =>
      match (page.hoverTooltips.map pyClean).find? (fun t => !t.isEmpty && containsHint t) with
      | some t => t
      | none => ""

/-- Bullet qualification (galaxus.py lines 147–150): normalized text length in
`(0, 220]`. -/
def qualifiesBullet (t : String) : Bool :=
  decide (0 < (pyClean t).length ∧ (pyClean t).length ≤ 220)

/-- Bullet heuristic (galaxus.py lines 142–151): count qualifying `li` texts
among the first `min(li_n, 250)` and require at least 5. -/
def bulletsOkOf (liTexts : List String) : Bool :=
  5 ≤ (liTexts.take 250).countP qualifiesBullet

/-- Price extraction on the product page (galaxus.py lines 153–158): cleaned
text of the first CHF-pattern element, or `""` when there is none. -/
def galaxusPriceText (page : ProductPage) : String :=
  match page.priceTexts.head? with
  | some t => pyClean t
  | none => ""

structure GalaxusResult where
  url : String
  availability_text : String
  images_count : Nat
  videos_count : Nat
  bullets_ok : Bool
  price_chf : String
deriving DecidableEq

/-- Field extraction once a product page is open (galaxus.py lines 134–172). -/
def extractGalaxus (page : ProductPage) : GalaxusResult :=
  { url := page.url
    availability_text := extract_availability_text page
    images_count := page.imagesCount
    videos_count := page.videosCount
    bullets_ok := bulletsOkOf page.liTexts
    price_chf := price_to_chf (galaxusPriceText page) }

/-- Playwright `a:has-text('pid')`: case-insensitive substring match on the
visible text. -/
def linkMatchesPid (l : Link) (pid : String) : Bool :=
  isSubstr (lowerL pid.data) (lowerL l.text.data)

/-- Playwright `a[href*='/']`. -/
def hrefPlausible (l : Link) : Bool := isSubstr ['/'] l.href.data

/-- Result-link selection (galaxus.py lines 123–130): first link whose text
contains the product id; otherwise FALLBACK to the first link with `/` in its
href; clicking when even the fallback locator is empty raises a timeout. -/
def selectResultLink (links : List Link) (pid : String) : Except PyError Link :=
  match links.find? (fun l => linkMatchesPid l pid) with
  | some l => .ok l
  | none =>
      match links.find? hrefPlausible with
      | some l => .ok l
      | none => .error ⟨"TimeoutError", "locator.click: Timeout 10000ms exceeded"⟩

/-- The search page: its result links, and the product page each link leads to. -/
structure SearchPage where
  links : List Link
  pageOf : Link → ProductPage

/-- `check_galaxus_product` (galaxus.py lines 101–172): select a result link
(with the href fallback), open it, extract everything from the product page. -/
def check_galaxus_product (sp : SearchPage) (pid : String) : Except PyError GalaxusResult :=
  match selectResultLink sp.links pid with
  | .error e => .error e
  | .ok l => .ok (extractGalaxus (sp.pageOf l))

/-! ### Keyword rank scanner (galaxus.py `check_keyword_rank`) -/

structure RankResult where
  rank : Option Nat
  over_48 : Bool
deriving DecidableEq

/-- The scan loop (galaxus.py lines 190–202).  `contents k` states whether the
literal product id occurs in the full rendered page content at attempt `k`
(the page grows as the loop scrolls by a fixed offset between attempts).
`fuel` is the number of attempts left, `attempt` the current attempt number. -/
def scanAux (contents : Nat → Bool) : Nat → Nat → RankResult
  | 0, _ => ⟨none, true⟩
  | fuel + 1, attempt =>
      if contents attempt then ⟨some attempt, false⟩
      else scanAux contents fuel (attempt + 1)

/-- `check_keyword_rank`: `for rank in range(1, 49)`, so 48 attempts starting
at 1; `{rank, over_48 := false}` on the first hit, `{"", over_48 := true}`
when the id never appears. -/
def check_keyword_rank (contents : Nat → Bool) : RankResult :=
  scanAux contents 48 1

/-! ### Vendor price aggregator (toppreise.py) -/

def ALLOWED_VENDOR_PATTERNS : List String :=
  ["interdiscount", "mediamarkt", "nettoshop", "brack", "fust", "philips",
   "babymarkt", "baby-markt", "babymarkt.com", "babymarkt.ch",
   "babywalz", "baby-walz", "baby-walz.ch"]

/-- Python `pat in hay` on strings. -/
def containsSubstr (hay pat : String) : Bool := isSubstr pat.data hay.data

/-- `str.capitalize()`: first character upper-cased, the rest lower-cased
(ASCII, which covers every pattern in the table). -/
def pyCapitalize (s : String) : String :=
  match s.data with
  | [] => ""
  | c :: t => ⟨c.toUpper :: lowerL t⟩

/-- `_normalize_vendor_from_text` (toppreise.py lines 44–64): first allowed
pattern contained (case-insensitively) in the text; baby vendors canonicalise
to `Babymarkt` / `Babywalz`, the rest to their capitalized form; `""` when no
pattern matches. -/
def normalize_vendor_from_text (containerText : String) : String :=
  let t : String := ⟨lowerL containerText.data⟩
  match ALLOWED_VENDOR_PATTERNS.find? (fun p => containsSubstr t p) with
  | none => ""
  | some p =>
      if containsSubstr p "babymarkt" || containsSubstr p "baby-markt" then "Babymarkt"
      else if containsSubstr p "babywalz" || containsSubstr p "baby-walz" then "Babywalz"
      else pyCapitalize p

/-- One element matched by the `text=/CHF\s*[\d'.,]+/` locator on the
toppreise page: its raw text, and the raw inner text of its nearest
`tr`/`li`/`div` ancestor (`none` when that xpath lookup raised, which the
code turns into an empty vendor). -/
structure PriceNode where
  priceText : String
  containerText : Option String

/-- Vendor for one price node (toppreise.py lines 127–135). -/
def vendorOfNode (n : PriceNode) : String :=
  match n.containerText with
  | none => ""
  | some ct => normalize_vendor_from_text (pyClean ct)

/-- Offer collection (toppreise.py lines 114–138): scan at most 80 price
nodes, parse each price (skipping unparsable ones), keep the pairs whose
vendor was recognized. -/
def offersOf (nodes : List PriceNode) : List (String × ℚ) :=
  (nodes.take 80).filterMap (fun n =>
    match parse_price (pyClean n.priceText) with
    | none => none
    | some price =>
        let v := vendorOfNode n
        if v = "" then none else some (v, price))

/-- One iteration of the minimum selection (toppreise.py lines 143–146):
`if best_price is None or price < best_price` — a strictly smaller price
wins, ties keep the earlier offer. -/
def bestStep (best : Option (String × ℚ)) (p : String × ℚ) : Option (String × ℚ) :=
  match best with
  | none => some p
  | some b => if p.2 < b.2 then some p else some b

/-- Minimum selection over all collected offers (toppreise.py lines 140–146). -/
def bestOf (offers : List (String × ℚ)) : Option (String × ℚ) :=
  offers.foldl bestStep none

structure ToppreiseResult where
  best_price_chf : Option ℚ
  vendor : String
deriving DecidableEq

/-- `check_toppreise` (toppreise.py lines 81–154): the best allowed-vendor
offer, or empty strings for both fields when none matched. -/
def check_toppreise (nodes : List PriceNode) : ToppreiseResult :=
  match bestOf (offersOf nodes) with
  | none => ⟨none, ""⟩
  | some (v, q) => ⟨some q, v⟩

/-! ### Row enrichment pipeline (runner.py) -/

structure InputRow where
  row_index : Nat
  product_id : String
  keyword : String
deriving DecidableEq

/-- The `res` dict of `process_one` (runner.py lines 27–42).  `keyword_rank`
is `""` or an int, modelled as `Option Nat`; `toppreise_price` is `""` or a
float, modelled as `Option ℚ`. -/
structure RowResult where
  availability_text : String
  images_ok : Bool
  videos_ok : Bool
  bullets_ok : Bool
  galaxus_price : String
  galaxus_url : String
  toppreise_price : Option ℚ
  toppreise_vendor : String
  keyword : String
  keyword_rank : Option Nat
  keyword_over_48 : Bool
  checked_at : String
  notes : String
deriving DecidableEq

/-- The initial `res` dict: safe defaults (false / empty), the row's keyword
and the timestamp. -/
def initRes (kw now : String) : RowResult :=
  { availability_text := ""
    images_ok := false
    videos_ok := false
    bullets_ok := false
    galaxus_price := ""
    galaxus_url := ""
    toppreise_price := none
    toppreise_vendor := ""
    keyword := kw
    keyword_rank := none
    keyword_over_48 := false
    checked_at := now
    notes := "" }

/-- Field updates after a successful galaxus check (runner.py lines 45–52),
including the derived booleans `images_ok = count ≥ 6`, `videos_ok = count ≥ 1`. -/
def applyGalaxus (res : RowResult) (g : GalaxusResult) : RowResult :=
  { res with
    galaxus_url := g.url
    availability_text := g.availability_text
    images_ok := decide (6 ≤ g.images_count)
    videos_ok := decide (1 ≤ g.videos_count)
    bullets_ok := g.bullets_ok
    galaxus_price := g.price_chf }

/-- Field updates after a successful rank check (runner.py lines 55–57). -/
def applyRank (res : RowResult) (r : RankResult) : RowResult :=
  { res with keyword_rank := r.rank, keyword_over_48 := r.over_48 }

/-- Field updates after a successful toppreise check (runner.py lines 59–61). -/
def applyToppreise (res : RowResult) (t : ToppreiseResult) : RowResult :=
  { res with toppreise_price := t.best_price_chf, toppreise_vendor := t.vendor }

/-- `process_one` (runner.py lines 25–69), with the three network calls given
as `Except` oracles.  The `try` block runs galaxus, then — only when the
keyword is non-empty (Python truthiness) — the rank check, then toppreise;
the first exception aborts the rest, is caught, and only sets `notes`. -/
def process_one (gx : Except PyError GalaxusResult) (rk : Except PyError RankResult)
    (tp : Except PyError ToppreiseResult) (inp : InputRow) (now : String) : RowResult :=
  let res0 := initRes inp.keyword now
  match gx with
  | .error e => { res0 with notes := errNote e }
  | .ok g =>
      let res1 := applyGalaxus res0 g
      if inp.keyword = "" then
        match tp with
        | .error e => { res1 with notes := errNote e }
        | .ok t => applyToppreise res1 t
      else
        match rk with
        | .error e => { res1 with notes := errNote e }
        | .ok r =>
            let res2 := applyRank res1 r
            match tp with
            | .error e => { res2 with notes := errNote e }
            | .ok t => applyToppreise res2 t

/-- The `results_by_row` mapping assembled by `run_job_excel` (runner.py
lines 21–71): one `(row_index, RowResult)` entry per input row.  The oracles
give each row's three network outcomes. -/
def runAll (gx : InputRow → Except PyError GalaxusResult)
    (rk : InputRow → Except PyError RankResult)
    (tp : InputRow → Except PyError ToppreiseResult)
    (now : String) (inputs : List InputRow) : List (Nat × RowResult) :=
  inputs.map (fun i => (i.row_index, process_one (gx i) (rk i) (tp i) i now))

/-! ### Concurrency gate of `run_job_excel` (runner.py lines 23–71)

`asyncio.Semaphore(2)` wrapped around the whole body of `process_one` is
modelled as a transition system over the per-row phases of a batch.  A row is
`waiting` until it acquires one of the 2 slots, then `acquired pc` while its
body runs under the semaphore — `pc` counts the completed suspension points:
1 galaxus check, 2 rank check, 3 toppreise check, 4 result recorded,
5 pacing sleep done — and `done` after the `async with` block releases the
slot.  `acquire` is only enabled while fewer than 2 rows hold a slot
(semaphore semantics), and `release` only once the pacing sleep (pc = 5) is
over, exactly as in the source where the sleep is inside the `async with`. -/

inductive RowPhase where
  | waiting : RowPhase
  | acquired : Nat → RowPhase
  | done : RowPhase
deriving DecidableEq

def isActive : RowPhase → Bool
  | .acquired _ => true
  | _ => false

/-- Number of rows currently holding the semaphore. -/
def activeCount (s : List RowPhase) : Nat := s.countP isActive

/-- Number of suspension points inside one acquired slot (three extractor
steps, recording the result, and the pacing sleep). -/
def numSteps : Nat := 5

inductive SemStep : List RowPhase → List RowPhase → Prop where
  | acquire (s : List RowPhase) (i : Nat) (h : s[i]? = some .waiting)
      (hc : activeCount s < 2) : SemStep s (s.set i (.acquired 0))
  | work (s : List RowPhase) (i pc : Nat) (h : s[i]? = some (.acquired pc))
      (hpc : pc < numSteps) : SemStep s (s.set i (.acquired (pc + 1)))
  | release (s : List RowPhase) (i : Nat) (h : s[i]? = some (.acquired numSteps)) :
      SemStep s (s.set i .done)

/-- Interleavings of the batch reachable by the cooperative scheduler. -/
def SemReach : List RowPhase → List RowPhase → Prop := Relation.ReflTransGen SemStep

/-- A batch of `n` rows before `asyncio.gather` starts them. -/
def initState (n : Nat) : List RowPhase := List.replicate n .waiting

/-! ### Spreadsheet I/O (excel/io.py) -/

def HEADER_ROW : Nat := 3
def DATA_START_ROW : Nat := 4

/-- A worksheet: last populated row index and the cell contents, `none` for an
empty cell and `some s` for a populated one (with `str()` already applied, as
`normalize_header` does). -/
structure Sheet where
  max_row : Nat
  cells : Nat → Nat → Option String

/-- `normalize_header` (io.py lines 11–19): `""` for `None`, else trim and
collapse internal whitespace. -/
def normalize_header (v : Option String) : String :=
  match v with
  | none => ""
  | some s => pyClean s

/-- The data row range `range(DATA_START_ROW, ws.max_row + 1)`. -/
def rowRange (ws : Sheet) : List Nat :=
  List.range' DATA_START_ROW (ws.max_row + 1 - DATA_START_ROW)

/-- One iteration of the `read_inputs` loop (io.py lines 51–56): skip the row
when the normalized id cell is empty, else build an `InputRow`.  Python
truthiness makes a keyword column number 0 behave like an absent column
(cannot occur: openpyxl columns start at 1). -/
def readRow (ws : Sheet) (idCol : Nat) (kwCol : Option Nat) (r : Nat) : Option InputRow :=
  let pid := normalize_header (ws.cells r idCol)
  if pid = "" then none
  else
    some ⟨r, pid,
      match kwCol with
      | none => ""
      | some kc => if kc = 0 then "" else normalize_header (ws.cells r kc)⟩

/-- The list built by the `read_inputs` loop for a given id column. -/
def inputsOf (ws : Sheet) (idCol : Nat) (kwCol : Option Nat) : List InputRow :=
  (rowRange ws).filterMap (readRow ws idCol kwCol)

/-- `read_inputs` (io.py lines 43–57).  The header map is an association list
(header name → column); a missing `ID` header raises `ValueError`. -/
def read_inputs (ws : Sheet) (headers : List (String × Nat)) : Except PyError (List InputRow) :=
  match List.lookup "ID" headers with
  | none => .error ⟨"ValueError", "Missing required column header \x27ID\x27 in row 3."⟩
  | some idCol => .ok (inputsOf ws idCol (List.lookup "Keyword" headers))

/-! ### Writing results back (io.py `write_outputs`) -/

/-- A cell value written by openpyxl: a string or a number. -/
inductive PyVal where
  | str : String → PyVal
  | num : ℚ → PyVal
deriving DecidableEq

/-- Point update of the cell grid (`ws.cell(row, col).value = v`). -/
def setCell (f : Nat → Nat → Option PyVal) (r c : Nat) (v : PyVal) : Nat → Nat → Option PyVal :=
  fun r' c' => if r' = r ∧ c' = c then some v else f r' c'

/-- Guarded update: `if col: ws.cell(row_idx, col).value = v`. -/
def setIf (f : Nat → Nat → Option PyVal) (col : Option Nat) (r : Nat) (v : PyVal) :
    Nat → Nat → Option PyVal :=
  match col with
  | none => f
  | some c => setCell f r c v

/-- Localized yes/no tokens (io.py lines 81–85). -/
def jaNein (b : Bool) : String := if b then "ja" else "nein"

/-- `res.get("toppreise_price", "")`: the float, or the empty string. -/
def tpPriceVal (p : Option ℚ) : PyVal :=
  match p with
  | some q => .num q
  | none => .str ""

/-- The designated output header names, in the order `write_outputs` resolves
them (io.py lines 68–75).  `Platzierung Keyword` (the rank column) was removed
and is deliberately absent; `Gutes Mainbild` is commented out in the source. -/
def outputHeaderNames : List String :=
  ["Available", "Min. 6 Bilder", "1- 3 Videos", "Produktbeschr",
   "Preis Galaxus", "Preis Marktpreis Main", "Marktpreis Anbieter Main"]

/-- The values one `RowResult` writes, in the same column order: availability
text, the three ja/nein flags, both prices, the vendor.  The keyword rank
appears nowhere in this list. -/
def rowVals (res : RowResult) : List PyVal :=
  [.str res.availability_text, .str (jaNein res.images_ok), .str (jaNein res.videos_ok),
   .str (jaNein res.bullets_ok), .str res.galaxus_price, tpPriceVal res.toppreise_price,
   .str res.toppreise_vendor]

/-- The column each designated header resolves to. -/
def outputColsOf (headers : List (String × Nat)) : List (Option Nat) :=
  outputHeaderNames.map (fun h => List.lookup h headers)

/-- The body of the `write_outputs` loop for one result row (io.py lines
77–91): the seven guarded cell writes, in source order. -/
def writeRow (headers : List (String × Nat)) (r : Nat) (res : RowResult)
    (f : Nat → Nat → Option PyVal) : Nat → Nat → Option PyVal :=
  ((outputColsOf headers).zip (rowVals res)).foldl (fun acc p => setIf acc p.1 r p.2) f

/-- `write_outputs` (io.py lines 59–91): apply the row writes for every entry
of `results_by_row`. -/
def write_outputs (f : Nat → Nat → Option PyVal) (headers : List (String × Nat))
    (results : List (Nat × RowResult)) : Nat → Nat → Option PyVal :=
  results.foldl (fun acc pr => writeRow headers pr.1 pr.2 acc) f

/-! ### Remote key-value persistence (storage/jsonbin.py) -/

/-- The store state: the two bin ids held by the `JsonBin` client and, for
every bin id, the bin's record — a JSON object modelled as a partial map from
keys to payloads of type `V`. -/
structure JsonBin (V : Type) where
  jobs_bin_id : String
  results_bin_id : String
  store : String → String → Option V

/-- `_read_bin_record`: the whole record of one bin. -/
def readBinRecord {V : Type} (st : JsonBin V) (binId : String) : String → Option V :=
  st.store binId

/-- `_write_bin_record`: replace the whole record of one bin. -/
def writeBinRecord {V : Type} (st : JsonBin V) (binId : String)
    (rec : String → Option V) : JsonBin V :=
  { st with store := fun b => if b = binId then rec else st.store b }

/-- `_upsert` (jsonbin.py lines 32–35): read the whole bin, replace the one
key, write the whole bin back. -/
def upsert {V : Type} (st : JsonBin V) (binId key : String) (v : V) : JsonBin V :=
  let record := readBinRecord st binId
  writeBinRecord st binId (fun k => if k = key then some v else record k)

def put_job {V : Type} (st : JsonBin V) (jobId : String) (payload : V) : JsonBin V :=
  upsert st st.jobs_bin_id jobId payload

def get_job {V : Type} (st : JsonBin V) (jobId : String) : Option V :=
  readBinRecord st st.jobs_bin_id jobId

def put_results {V : Type} (st : JsonBin V) (jobId : String) (payload : V) : JsonBin V :=
  upsert st st.results_bin_id jobId payload

def get_results {V : Type} (st : JsonBin V) (jobId : String) : Option V :=
  readBinRecord st st.results_bin_id jobId

/-! ### Concrete instances used to witness the theorems below -/

def sampleRow : InputRow := ⟨4, "12345", "babyphone"⟩

def gxFailOracle : InputRow → Except PyError GalaxusResult :=
  fun _ => .error ⟨"TimeoutError", "Timeout 60000ms exceeded"⟩

def rkOkOracle : InputRow → Except PyError RankResult := fun _ => .ok ⟨some 3, false⟩

def tpOkOracle : InputRow → Except PyError ToppreiseResult := fun _ => .ok ⟨none, ""⟩

def samplePage : ProductPage := ⟨"https://www.galaxus.ch/de/product/999", [], [], 0, 0, [], []⟩

def sampleSearch : SearchPage := ⟨[⟨"Some product card", "/de/product/999"⟩], fun _ => samplePage⟩

def hitAtThree : Nat → Bool := fun k => decide (k = 3)

def neverFound : Nat → Bool := fun _ => false

def sampleNodes : List PriceNode :=
  [⟨"CHF 29.90", some "bei Fust kaufen"⟩,
   ⟨"CHF 19.90", some "baby-walz Versand"⟩,
   ⟨"CHF 9.90", some "Unbekannter Shop"⟩]

def sampleSheet : Sheet :=
  ⟨5, fun r c =>
    if r = 4 ∧ c = 1 then some "12345"
    else if r = 4 ∧ c = 2 then some "babyphone"
    else if r = 5 ∧ c = 1 then some ""
    else none⟩

def sampleHeaders : List (String × Nat) := [("ID", 1), ("Keyword", 2)]

def sampleCells : Nat → Nat → Option PyVal := fun _ _ => some (.str "old")

def sampleOutHeaders : List (String × Nat) := [("Available", 7)]

def sampleResult : RowResult := { initRes "babyphone" "2024-01-01T00:00:00" with keyword_rank := some 3 }

def sampleBin : JsonBin Nat :=
  ⟨"jobsbin", "resultsbin", fun b k => if b = "jobsbin" ∧ k = "other" then some 1 else none⟩

def twoStarted1 : List RowPhase := [.acquired 0, .waiting, .waiting]

def twoStarted2 : List RowPhase := [.acquired 0, .acquired 0, .waiting]

def fourBullets : List String := ["Merkmal  eins", "Merkmal zwei", "Merkmal drei", "Merkmal vier"]

def fiveBullets : List String :=
  ["Merkmal eins", "Merkmal zwei", "Merkmal drei", "Merkmal vier", "Merkmal fünf"]

/-! ## Helper lemmas -/

lemma class_not_space (c : Char) (h : classChar c = true) : pyIsSpace c = false := by
  simp only [classChar, Bool.or_eq_true, Bool.and_eq_true, decide_eq_true_eq] at h
  apply Bool.eq_false_iff.mpr
  intro hs
  simp only [pyIsSpace, Bool.or_eq_true, decide_eq_true_eq] at hs
  omega

lemma takeWhile_all_class (g : List Char) (hcl : ∀ c ∈ g, classChar c = true) :
    g.takeWhile classChar = g := by
  induction g with
  | nil => rfl
  | cons c t ih =>
      rw [List.takeWhile_cons, hcl c (by simp)]
      simp only [ite_true]
      rw [ih (fun x hx => hcl x (by simp [hx]))]

lemma dropWhile_space_append (sp g : List Char) (hsp : ∀ c ∈ sp, pyIsSpace c = true)
    (hhd : ∀ c ∈ g.take 1, pyIsSpace c = false) :
    (sp ++ g).dropWhile pyIsSpace = g := by
  induction sp with
  | nil =>
      cases g with
      | nil => rfl
      | cons c t =>
          rw [List.nil_append, List.dropWhile_cons, hhd c (by simp)]
          simp
  | cons s ss ih =>
      rw [List.cons_append, List.dropWhile_cons, hsp s (by simp)]
      simp only [ite_true]
      exact ih (fun c hc => hsp c (by simp [hc]))

lemma priceGroup_chf_head (sp g : List Char) (hsp : ∀ c ∈ sp, pyIsSpace c = true)
    (hg : g ≠ []) (hcl : ∀ c ∈ g, classChar c = true) :
    priceGroupCHF ('C' :: 'H' :: 'F' :: (sp ++ g)) = some g := by
  have hhd : ∀ c ∈ g.take 1, pyIsSpace c = false :=
    fun c hc => class_not_space c (hcl c (List.mem_of_mem_take hc))
  simp only [priceGroupCHF]
  rw [dropWhile_space_append sp g hsp hhd, takeWhile_all_class g hcl]
  rw [if_neg (fun h => hg (List.isEmpty_iff.mp h))]

lemma price_to_chfL_general (sp g : List Char) (hsp : ∀ c ∈ sp, pyIsSpace c = true)
    (hg : g ≠ []) (hcl : ∀ c ∈ g, classChar c = true) :
    price_to_chfL ('C' :: 'H' :: 'F' :: (sp ++ g)) = g.filter (fun c => c ≠ apos) := by
  unfold price_to_chfL
  rw [priceGroup_chf_head sp g hsp hg hcl]

lemma bestFold_some (l : List (String × ℚ)) :
    ∀ a : String × ℚ, ∃ b, l.foldl bestStep (some a) = some b ∧ (b = a ∨ b ∈ l) ∧
      b.2 ≤ a.2 ∧ ∀ p ∈ l, b.2 ≤ p.2 := by
  induction l with
  | nil => intro a; exact ⟨a, rfl, Or.inl rfl, le_rfl, by simp⟩
  | cons p t ih =>
      intro a
      by_cases hlt : p.2 < a.2
      · have hstep : bestStep (some a) p = some p := by simp [bestStep, hlt]
        obtain ⟨b, heq, hmem, hle, hall⟩ := ih p
        refine ⟨b, ?_, ?_, le_trans hle (le_of_lt hlt), ?_⟩
        · rw [List.foldl_cons, hstep]; exact heq
        · rcases hmem with h | h
          · exact Or.inr (by simp [h])
          · exact Or.inr (by simp [h])
        · intro q hq
          rcases List.mem_cons.mp hq with h | h
          · exact h ▸ hle
          · exact hall q h
      · have hstep : bestStep (some a) p = some a := by simp [bestStep, hlt]
        obtain ⟨b, heq, hmem, hle, hall⟩ := ih a
        refine ⟨b, ?_, ?_, hle, ?_⟩
        · rw [List.foldl_cons, hstep]; exact heq
        · rcases hmem with h | h
          · exact Or.inl h
          · exact Or.inr (by simp [h])
        · intro q hq
          rcases List.mem_cons.mp hq with h | h
          · exact h ▸ le_trans hle (le_of_not_lt hlt)
          · exact hall q h

lemma bestOf_spec (l : List (String × ℚ)) :
    (l = [] → bestOf l = none) ∧
    (∀ b, bestOf l = some b → b ∈ l ∧ ∀ p ∈ l, b.2 ≤ p.2) ∧
    (l ≠ [] → ∃ b, bestOf l = some b) := by
  cases l with
  | nil =>
      refine ⟨fun _ => rfl, ?_, fun h => absurd rfl h⟩
      intro b h
      simp [bestOf] at h
  | cons p t =>
      obtain ⟨b, heq, hmem, hle, hall⟩ := bestFold_some t p
      have hstart : bestOf (p :: t) = some b := heq
      refine ⟨by simp, ?_, fun _ => ⟨b, hstart⟩⟩
      intro b2 h2
      rw [hstart] at h2
      obtain rfl : b = b2 := Option.some.injEq .. ▸ h2
      constructor
      · rcases hmem with h | h
        · exact h ▸ List.mem_cons_self p t
        · exact List.mem_cons_of_mem p h
      · intro q hq
        rcases List.mem_cons.mp hq with h | h
        · exact h ▸ hle
        · exact hall q h

lemma activeCount_init (n : Nat) : activeCount (initState n) = 0 := by
  unfold activeCount initState
  induction n with
  | zero => rfl
  | succ m ih =>
      rw [List.replicate_succ, List.countP_cons, ih]
      rfl

lemma semStep_active_le {s t : List RowPhase} (h : SemStep s t) (h2 : activeCount s ≤ 2) :
    activeCount t ≤ 2 := by
  cases h with
  | acquire i hi hc =>
      obtain ⟨hlen, hval⟩ := List.getElem?_eq_some_iff.mp hi
      unfold activeCount at *
      rw [List.countP_set isActive s i _ hlen, hval]
      simp only [isActive, if_true, Bool.false_eq_true, if_false]
      omega
  | work i pc hi hpc =>
      obtain ⟨hlen, hval⟩ := List.getElem?_eq_some_iff.mp hi
      unfold activeCount at *
      rw [List.countP_set isActive s i _ hlen, hval]
      simp only [isActive, if_true, Bool.false_eq_true, if_false]
      omega
  | release i hi =>
      obtain ⟨hlen, hval⟩ := List.getElem?_eq_some_iff.mp hi
      unfold activeCount at *
      rw [List.countP_set isActive s i _ hlen, hval]
      simp only [isActive, if_true, Bool.false_eq_true, if_false]
      omega

lemma filterMap_readRow_map_row (ws : Sheet) (idCol : Nat) (kwCol : Option Nat) :
    ∀ l : List Nat, (l.filterMap (readRow ws idCol kwCol)).map (fun i => i.row_index) =
      l.filter (fun r => !(normalize_header (ws.cells r idCol) == "")) := by
  intro l
  induction l with
  | nil => rfl
  | cons r t ih =>
      by_cases h : normalize_header (ws.cells r idCol) = ""
      · simp [List.filterMap_cons, List.filter_cons, readRow, h, ih]
      · simp [List.filterMap_cons, List.filter_cons, readRow, h, ih]

lemma setIf_ne_row (f : Nat → Nat → Option PyVal) (col : Option Nat) (r : Nat) (v : PyVal)
    (r' c' : Nat) (h : r' ≠ r) : setIf f col r v r' c' = f r' c' := by
  cases col with
  | none => rfl
  | some c => simp [setIf, setCell, h]

lemma setIf_ne_col (f : Nat → Nat → Option PyVal) (col : Option Nat) (r : Nat) (v : PyVal)
    (r' c' : Nat) (h : col ≠ some c') : setIf f col r v r' c' = f r' c' := by
  cases col with
  | none => rfl
  | some c =>
      have hc : c' ≠ c := fun he => h (by rw [he])
      simp [setIf, setCell, hc]

lemma setIf_origin (f : Nat → Nat → Option PyVal) (col : Option Nat) (r : Nat) (v : PyVal)
    (r' c' : Nat) :
    setIf f col r v r' c' = f r' c' ∨ (r' = r ∧ setIf f col r v r' c' = some v) := by
  cases col with
  | none => exact Or.inl rfl
  | some c =>
      by_cases hrc : r' = r ∧ c' = c
      · exact Or.inr ⟨hrc.1, by simp [setIf, setCell, hrc.1, hrc.2]⟩
      · exact Or.inl (by simp [setIf, setCell, hrc])

lemma foldSet_ne_row (ps : List (Option Nat × PyVal)) :
    ∀ (f : Nat → Nat → Option PyVal) (r r' c' : Nat), r' ≠ r →
      (ps.foldl (fun acc p => setIf acc p.1 r p.2) f) r' c' = f r' c' := by
  induction ps with
  | nil => intro f r r' c' _; rfl
  | cons p t ih =>
      intro f r r' c' h
      rw [List.foldl_cons, ih (setIf f p.1 r p.2) r r' c' h]
      exact setIf_ne_row f p.1 r p.2 r' c' h

lemma foldSet_ne_col (ps : List (Option Nat × PyVal)) :
    ∀ (f : Nat → Nat → Option PyVal) (r r' c' : Nat), (∀ p ∈ ps, p.1 ≠ some c') →
      (ps.foldl (fun acc p => setIf acc p.1 r p.2) f) r' c' = f r' c' := by
  induction ps with
  | nil => intro f r r' c' _; rfl
  | cons p t ih =>
      intro f r r' c' h
      rw [List.foldl_cons, ih (setIf f p.1 r p.2) r r' c'
        (fun q hq => h q (List.mem_cons_of_mem p hq))]
      exact setIf_ne_col f p.1 r p.2 r' c' (h p (List.mem_cons_self p t))

lemma foldSet_origin (ps : List (Option Nat × PyVal)) :
    ∀ (f : Nat → Nat → Option PyVal) (r r' c' : Nat),
      (ps.foldl (fun acc p => setIf acc p.1 r p.2) f) r' c' = f r' c' ∨
        (r' = r ∧ ∃ v, (∃ oc, (oc, v) ∈ ps) ∧
          (ps.foldl (fun acc p => setIf acc p.1 r p.2) f) r' c' = some v) := by
  induction ps with
  | nil => intro f r r' c'; exact Or.inl rfl
  | cons p t ih =>
      intro f r r' c'
      rw [List.foldl_cons]
      rcases ih (setIf f p.1 r p.2) r r' c' with h | ⟨hr, v, ⟨oc, hmem⟩, hv⟩
      · rcases setIf_origin f p.1 r p.2 r' c' with h2 | ⟨hr2, h2⟩
        · exact Or.inl (h.trans h2)
        · refine Or.inr ⟨hr2, p.2, ⟨p.1, ?_⟩, h.trans h2⟩
          rw [Prod.mk.eta]
          exact List.mem_cons_self p t
      · exact Or.inr ⟨hr, v, ⟨oc, List.mem_cons_of_mem p hmem⟩, hv⟩

lemma writeRow_ne_row (headers : List (String × Nat)) (r : Nat) (res : RowResult)
    (f : Nat → Nat → Option PyVal) (r' c' : Nat) (h : r' ≠ r) :
    writeRow headers r res f r' c' = f r' c' :=
  foldSet_ne_row ((outputColsOf headers).zip (rowVals res)) f r r' c' h

lemma writeRow_ne_col (headers : List (String × Nat)) (r : Nat) (res : RowResult)
    (f : Nat → Nat → Option PyVal) (r' c' : Nat)
    (h : ∀ hn ∈ outputHeaderNames, List.lookup hn headers ≠ some c') :
    writeRow headers r res f r' c' = f r' c' := by
  apply foldSet_ne_col
  intro p hp
  obtain ⟨a, b⟩ := p
  have ha : a ∈ outputColsOf headers := (List.of_mem_zip hp).1
  obtain ⟨hn, hhn, heq⟩ := List.mem_map.mp ha
  exact heq ▸ h hn hhn

lemma writeRow_origin (headers : List (String × Nat)) (r : Nat) (res : RowResult)
    (f : Nat → Nat → Option PyVal) (r' c' : Nat) :
    writeRow headers r res f r' c' = f r' c' ∨
      (r' = r ∧ ∃ v ∈ rowVals res, writeRow headers r res f r' c' = some v) := by
  rcases foldSet_origin ((outputColsOf headers).zip (rowVals res)) f r r' c'
    with h | ⟨hr, v, ⟨oc, hmem⟩, hv⟩
  · exact Or.inl h
  · exact Or.inr ⟨hr, v, (List.of_mem_zip hmem).2, hv⟩

lemma write_outputs_frame_row (results : List (Nat × RowResult)) :
    ∀ (f : Nat → Nat → Option PyVal) (headers : List (String × Nat)) (r c : Nat),
      (∀ res, (r, res) ∉ results) → write_outputs f headers results r c = f r c := by
  induction results with
  | nil => intro f headers r c _; rfl
  | cons pr t ih =>
      intro f headers r c h
      have hr : r ≠ pr.1 := by
        intro he
        exact h pr.2 (by rw [he, Prod.mk.eta]; exact List.mem_cons_self pr t)
      unfold write_outputs at ih ⊢
      rw [List.foldl_cons, ih (writeRow headers pr.1 pr.2 f) headers r c
        (fun res hmem => h res (List.mem_cons_of_mem pr hmem))]
      exact writeRow_ne_row headers pr.1 pr.2 f r c hr

lemma write_outputs_frame_col (results : List (Nat × RowResult)) :
    ∀ (f : Nat → Nat → Option PyVal) (headers : List (String × Nat)) (r c : Nat),
      (∀ hn ∈ outputHeaderNames, List.lookup hn headers ≠ some c) →
      write_outputs f headers results r c = f r c := by
  induction results with
  | nil => intro f headers r c _; rfl
  | cons pr t ih =>
      intro f headers r c h
      unfold write_outputs at ih ⊢
      rw [List.foldl_cons, ih (writeRow headers pr.1 pr.2 f) headers r c h]
      exact writeRow_ne_col headers pr.1 pr.2 f r c h

lemma write_outputs_origin (results : List (Nat × RowResult)) :
    ∀ (f : Nat → Nat → Option PyVal) (headers : List (String × Nat)) (r c : Nat),
      write_outputs f headers results r c = f r c ∨
        ∃ res, (r, res) ∈ results ∧ ∃ v ∈ rowVals res,
          write_outputs f headers results r c = some v := by
  induction results with
  | nil => intro f headers r c; exact Or.inl rfl
  | cons pr t ih =>
      intro f headers r c
      unfold write_outputs at ih ⊢
      rw [List.foldl_cons]
      rcases ih (writeRow headers pr.1 pr.2 f) headers r c with h | ⟨res, hres, v, hv, heq⟩
      · rcases writeRow_origin headers pr.1 pr.2 f r c with h2 | ⟨hr, v, hv, heq2⟩
        · exact Or.inl (h.trans h2)
        · refine Or.inr ⟨pr.2, ?_, v, hv, h.trans heq2⟩
          rw [hr, Prod.mk.eta]
          exact List.mem_cons_self pr t
      · exact Or.inr ⟨res, List.mem_cons_of_mem pr hres, v, hv, heq⟩

lemma scanAux_hit (contents : Nat → Bool) :
    ∀ fuel start k, start ≤ k → k < start + fuel → contents k = true →
      (∀ j, start ≤ j → j < k → contents j = false) →
      scanAux contents fuel start = ⟨some k, false⟩ := by
  intro fuel
  induction fuel with
  | zero => intro start k h1 h2 _ _; omega
  | succ n ih =>
      intro start k h1 h2 hk hprev
      by_cases hs : contents start = true
      · have hks : k = start := by
          by_contra hne
          have hlt : start < k := lt_of_le_of_ne h1 (Ne.symm hne)
          have hcs := hprev start le_rfl hlt
          rw [hcs] at hs
          exact Bool.false_ne_true hs
        subst hks
        simp [scanAux, hs]
      · have hs' : contents start = false := Bool.eq_false_iff.mpr hs
        have hne : start ≠ k := by
          intro he; rw [← he] at hk; exact hs hk
        simp only [scanAux, hs', Bool.false_eq_true, if_false]
        exact ih (start + 1) k (by omega) (by omega) hk
          (fun j hj1 hj2 => hprev j (by omega) hj2)

lemma scanAux_miss (contents : Nat → Bool) :
    ∀ fuel start, (∀ j, start ≤ j → j < start + fuel → contents j = false) →
      scanAux contents fuel start = ⟨none, true⟩ := by
  intro fuel
  induction fuel with
  | zero => intro start _; rfl
  | succ n ih =>
      intro start h
      have hs : contents start = false := h start le_rfl (by omega)
      simp only [scanAux, hs, Bool.false_eq_true, if_false]
      exact ih (start + 1) (fun j hj1 hj2 => h j (by omega) (by omega))

lemma scanAux_some_bounds (contents : Nat → Bool) :
    ∀ fuel start k b, scanAux contents fuel start = ⟨some k, b⟩ →
      start ≤ k ∧ k < start + fuel ∧ b = false := by
  intro fuel
  induction fuel with
  | zero => intro start k b h; simp [scanAux] at h
  | succ n ih =>
      intro start k b h
      by_cases hs : contents start = true
      · simp only [scanAux, hs, if_true] at h
        obtain ⟨h1, h2⟩ := RankResult.mk.injEq .. ▸ h
        obtain rfl : start = k := Option.some.injEq .. ▸ h1
        exact ⟨le_rfl, by omega, h2.symm⟩
      · have hs' : contents start = false := Bool.eq_false_iff.mpr hs
        simp only [scanAux, hs', Bool.false_eq_true, if_false] at h
        have hrec := ih (start + 1) k b h
        exact ⟨by omega, by omega, hrec.2.2⟩

/-! ## Claim theorems -/

/-- Claim C4, counterexample: the spec asserts that `"CHF 19.–"` (whose `CHF`
prefix is not followed by a complete numeric amount) parses to the empty
result, but both parsers return a non-empty result on it: `_price_to_chf`
yields the string `"19."` and `_parse_price` yields the float `19.0`, because
the regex class `[\d'.,]` happily matches the digits and the trailing dot. -/
theorem c4_price_counterexample :
    price_to_chf "CHF 19.–" = "19." ∧ price_to_chf "CHF 19.–" ≠ "" ∧
    parse_price "CHF 19.–" = some 19 ∧ parse_price "CHF 19.–" ≠ none :=
  ⟨by decide, by decide, by decide, by decide⟩

/-- Claim C4 (amended): for every price string `CHF` + whitespace + a
non-empty run of digits/apostrophes/dots/commas, `_price_to_chf` returns that
run with the thousands apostrophes stripped — in particular
`"CHF 1'234.50" ↦ "1234.50"` and `_parse_price` gives the rational
`1234.50`.  However `"CHF 19.–"` does NOT yield the empty result: the match
stops at the en dash and yields `"19."` / `19.0`.  The parsers yield the
empty result only when no character of the class `[\d'.,]` follows a `CHF`
occurrence at all, e.g. on `"CHF –"`. -/
theorem c4_price_parsing :
    (∀ sp g : List Char, (∀ c ∈ sp, pyIsSpace c = true) → g ≠ [] →
        (∀ c ∈ g, classChar c = true) →
        price_to_chf ⟨'C' :: 'H' :: 'F' :: (sp ++ g)⟩ = ⟨g.filter (fun c => c ≠ apos)⟩) ∧
    price_to_chf "CHF 1\x27234.50" = "1234.50" ∧
    parse_price "CHF 1\x27234.50" = some (mkRat 2469 2) ∧
    price_to_chf "CHF 19.–" = "19." ∧
    parse_price "CHF 19.–" = some 19 ∧
    price_to_chf "CHF –" = "" ∧
    parse_price "CHF –" = none := by
  refine ⟨?_, by decide, by decide, by decide, by decide, by decide, by decide⟩
  intro sp g hsp hg hcl
  show (⟨price_to_chfL ('C' :: 'H' :: 'F' :: (sp ++ g))⟩ : String) = _
  exact congrArg String.mk (price_to_chfL_general sp g hsp hg hcl)

/-- Witness for `c4_price_parsing`: its universally quantified part applied to
one space and the digit run of `"CHF 1'234.50"`. -/
theorem c4_price_parsing_witness :
    price_to_chf ⟨'C' :: 'H' :: 'F' :: ([' '] ++ "1\x27234.50".data)⟩ =
      ⟨"1\x27234.50".data.filter (fun c => c ≠ apos)⟩ :=
  c4_price_parsing.1 [' '] "1\x27234.50".data (by decide) (by decide) (by decide)

/-- Claim C6: `check_keyword_rank` performs at most 48 attempts.  If the
product id first appears in the rendered content at attempt `k` with
`1 ≤ k ≤ 48`, the result is `rank = k`, `over_48 = false`; if it appears at
no attempt up to 48, the result is `rank` empty and `over_48 = true`; and
every returned rank lies in `1..48` with `over_48 = false`. -/
theorem c6_keyword_rank :
    (∀ (contents : Nat → Bool) k, 1 ≤ k → k ≤ 48 → contents k = true →
        (∀ j, 1 ≤ j → j < k → contents j = false) →
        check_keyword_rank contents = ⟨some k, false⟩) ∧
    (∀ contents : Nat → Bool, (∀ j, 1 ≤ j → j ≤ 48 → contents j = false) →
        check_keyword_rank contents = ⟨none, true⟩) ∧
    (∀ (contents : Nat → Bool) k b, check_keyword_rank contents = ⟨some k, b⟩ →
        1 ≤ k ∧ k ≤ 48 ∧ b = false) := by
  refine ⟨?_, ?_, ?_⟩
  · intro contents k h1 h2 hk hprev
    exact scanAux_hit contents 48 1 k h1 (by omega) hk (fun j hj1 hj2 => hprev j hj1 hj2)
  · intro contents h
    exact scanAux_miss contents 48 1 (fun j hj1 hj2 => h j hj1 (by omega))
  · intro contents k b h
    have hb := scanAux_some_bounds contents 48 1 k b h
    exact ⟨hb.1, by omega, hb.2.2⟩

/-- Witness for `c6_keyword_rank`: a page where the id appears at attempt 3
gives rank 3 (the spec's own example), and a page where it never appears
gives an empty rank with `over_48 = true`. -/
theorem c6_keyword_rank_witness :
    check_keyword_rank hitAtThree = ⟨some 3, false⟩ ∧
    check_keyword_rank neverFound = ⟨none, true⟩ :=
  ⟨c6_keyword_rank.1 hitAtThree 3 (by decide) (by decide) (by decide)
      (fun j _ hj2 => by simp only [hitAtThree, decide_eq_false_iff_not]; omega),
   c6_keyword_rank.2.1 neverFound (fun _ _ _ => rfl)⟩

/-- Claim C10: `_upsert` (and hence `put_job` / `put_results`) reads the whole
bin, replaces only the entry for the given key, and writes the bin back: in
this sequential model every other key of the bin — and every other bin — is
left unchanged. -/
theorem c10_upsert_frame {V : Type} (st : JsonBin V) (j k : String) (v : V) (h : k ≠ j) :
    (put_job st j v).store st.jobs_bin_id k = st.store st.jobs_bin_id k ∧
    get_job (put_job st j v) k = get_job st k ∧
    (put_results st j v).store st.results_bin_id k = st.store st.results_bin_id k ∧
    get_results (put_results st j v) k = get_results st k ∧
    (∀ b, b ≠ st.jobs_bin_id → (put_job st j v).store b = st.store b) ∧
    (∀ b, b ≠ st.results_bin_id → (put_results st j v).store b = st.store b) := by
  refine ⟨?_, ?_, ?_, ?_, ?_, ?_⟩
  · simp [put_job, upsert, writeBinRecord, readBinRecord, h]
  · simp [put_job, get_job, upsert, writeBinRecord, readBinRecord, h]
  · simp [put_results, upsert, writeBinRecord, readBinRecord, h]
  · simp [put_results, get_results, upsert, writeBinRecord, readBinRecord, h]
  · intro b hb
    funext k2
    simp [put_job, upsert, writeBinRecord, readBinRecord, hb]
  · intro b hb
    funext k2
    simp [put_results, upsert, writeBinRecord, readBinRecord, hb]

/-- Witness for `c10_upsert_frame`: writing job `"j123"` leaves the record
stored under `"other"` (which holds payload `1`) untouched. -/
theorem c10_upsert_frame_witness :
    ("other" : String) ≠ "j123" ∧
    get_job (put_job sampleBin "j123" 7) "other" = get_job sampleBin "other" ∧
    get_job sampleBin "other" = some 1 :=
  ⟨by decide, (c10_upsert_frame sampleBin "j123" "other" 7 (by decide)).2.1, by decide⟩

/-- Claim C1: the enrichment pipeline is total — one `RowResult` per
`InputRow`, with the input's row index as its key in `results_by_row`.  When
a step's oracle throws, the row's result sets `notes` to
`ERROR: <kind>: <message>`, keeps every field written by the steps that
succeeded before the failure, and leaves the remaining fields at the safe
defaults of `initRes`; the successful cases fill all three step results. -/
theorem c1_pipeline (gx : InputRow → Except PyError GalaxusResult)
    (rk : InputRow → Except PyError RankResult)
    (tp : InputRow → Except PyError ToppreiseResult) (now : String) (inputs : List InputRow) :
    (runAll gx rk tp now inputs).length = inputs.length ∧
    (runAll gx rk tp now inputs).map Prod.fst = inputs.map (fun i => i.row_index) ∧
    (∀ i ∈ inputs,
        (i.row_index, process_one (gx i) (rk i) (tp i) i now) ∈ runAll gx rk tp now inputs) ∧
    (∀ i e, gx i = .error e →
        process_one (gx i) (rk i) (tp i) i now =
          { initRes i.keyword now with notes := errNote e }) ∧
    (∀ i g e, gx i = .ok g → i.keyword ≠ "" → rk i = .error e →
        process_one (gx i) (rk i) (tp i) i now =
          { applyGalaxus (initRes i.keyword now) g with notes := errNote e }) ∧
    (∀ i g e, gx i = .ok g → i.keyword = "" → tp i = .error e →
        process_one (gx i) (rk i) (tp i) i now =
          { applyGalaxus (initRes i.keyword now) g with notes := errNote e }) ∧
    (∀ i g r e, gx i = .ok g → i.keyword ≠ "" → rk i = .ok r → tp i = .error e →
        process_one (gx i) (rk i) (tp i) i now =
          { applyRank (applyGalaxus (initRes i.keyword now) g) r with notes := errNote e }) ∧
    (∀ i g t, gx i = .ok g → i.keyword = "" → tp i = .ok t →
        process_one (gx i) (rk i) (tp i) i now =
          applyToppreise (applyGalaxus (initRes i.keyword now) g) t) ∧
    (∀ i g r t, gx i = .ok g → i.keyword ≠ "" → rk i = .ok r → tp i = .ok t →
        process_one (gx i) (rk i) (tp i) i now =
          applyToppreise (applyRank (applyGalaxus (initRes i.keyword now) g) r) t) := by
  refine ⟨by simp [runAll], by simp [runAll], ?_, ?_, ?_, ?_, ?_, ?_, ?_⟩
  · intro i hi
    simp only [runAll, List.mem_map]
    exact ⟨i, hi, rfl⟩
  · intro i e he
    simp [process_one, he]
  · intro i g e hg hkw hr
    simp [process_one, hg, hkw, hr]
  · intro i g e hg hkw ht
    simp [process_one, hg, hkw, ht]
  · intro i g r e hg hkw hr ht
    simp [process_one, hg, hkw, hr, ht]
  · intro i g t hg hkw ht
    simp [process_one, hg, hkw, ht]
  · intro i g r t hg hkw hr ht
    simp [process_one, hg, hkw, hr, ht]

/-- Witness for `c1_pipeline`: a row whose galaxus step throws a timeout is
still present in `results_by_row`, with `notes` recording the error kind and
message and every other field at its safe default. -/
theorem c1_pipeline_witness :
    (sampleRow.row_index,
        process_one (gxFailOracle sampleRow) (rkOkOracle sampleRow) (tpOkOracle sampleRow)
          sampleRow "T") ∈ runAll gxFailOracle rkOkOracle tpOkOracle "T" [sampleRow] ∧
    process_one (gxFailOracle sampleRow) (rkOkOracle sampleRow) (tpOkOracle sampleRow)
        sampleRow "T" =
      { initRes "babyphone" "T" with notes := "ERROR: TimeoutError: Timeout 60000ms exceeded" } :=
  ⟨(c1_pipeline gxFailOracle rkOkOracle tpOkOracle "T" [sampleRow]).2.2.1 sampleRow (by decide),
   ((c1_pipeline gxFailOracle rkOkOracle tpOkOracle "T" [sampleRow]).2.2.2.1 sampleRow
      ⟨"TimeoutError", "Timeout 60000ms exceeded"⟩ rfl).trans (by decide)⟩

/-- Claim C3, counterexample: on a search page where NO result link's visible
text contains the product id, `check_galaxus_product` does not fail with a
not-found error — the code at galaxus.py lines 126–128 explicitly falls back
to the first plausible product link and extracts from that page. -/
theorem c3_notfound_counterexample :
    (sampleSearch.links.all (fun l => !(linkMatchesPid l "12345"))) = true ∧
    check_galaxus_product sampleSearch "12345" = .ok (extractGalaxus samplePage) :=
  ⟨by decide, rfl⟩

/-- Claim C3 (amended): when no result link's text contains the product id,
the extractor falls back to the first link with `/` in its href and proceeds
to extract from that page; it fails (with a click timeout, not a not-found
error) only when the fallback locator is empty too.  A link whose text does
contain the id is preferred. -/
theorem c3_link_selection (sp : SearchPage) (pid : String) :
    (sp.links.find? (fun l => linkMatchesPid l pid) = none →
        sp.links.find? hrefPlausible = none →
        check_galaxus_product sp pid =
          .error ⟨"TimeoutError", "locator.click: Timeout 10000ms exceeded"⟩) ∧
    (∀ l, sp.links.find? (fun l => linkMatchesPid l pid) = none →
        sp.links.find? hrefPlausible = some l →
        check_galaxus_product sp pid = .ok (extractGalaxus (sp.pageOf l))) ∧
    (∀ l, sp.links.find? (fun l => linkMatchesPid l pid) = some l →
        check_galaxus_product sp pid = .ok (extractGalaxus (sp.pageOf l))) := by
  refine ⟨?_, ?_, ?_⟩
  · intro h1 h2
    simp [check_galaxus_product, selectResultLink, h1, h2]
  · intro l h1 h2
    simp [check_galaxus_product, selectResultLink, h1, h2]
  · intro l h1
    simp [check_galaxus_product, selectResultLink, h1]

/-- Witness for `c3_link_selection`: the fallback branch applied to the
sample search page, where the only link does not mention the id. -/
theorem c3_link_selection_witness :
    check_galaxus_product sampleSearch "12345" =
      .ok (extractGalaxus (sampleSearch.pageOf ⟨"Some product card", "/de/product/999"⟩)) :=
  (c3_link_selection sampleSearch "12345").2.1 ⟨"Some product card", "/de/product/999"⟩ rfl rfl

/-- Claim C7: `bullets_ok` is true iff at least 5 of the first 250 scanned
list items have normalized (whitespace-collapsed, trimmed) text of length in
`(0, 220]`; exactly 4 qualifying items give `false`; and the `bullets_ok`
field of a successful `check_galaxus_product` is exactly this predicate over
the opened product page's list items. -/
theorem c7_bullets :
    (∀ lis : List String, bulletsOkOf lis = true ↔ 5 ≤ (lis.take 250).countP qualifiesBullet) ∧
    (∀ lis : List String, (lis.take 250).countP qualifiesBullet = 4 → bulletsOkOf lis = false) ∧
    (∀ (sp : SearchPage) (pid : String) (l : Link) (g : GalaxusResult),
        selectResultLink sp.links pid = .ok l → check_galaxus_product sp pid = .ok g →
        g.bullets_ok = bulletsOkOf (sp.pageOf l).liTexts) := by
  refine ⟨?_, ?_, ?_⟩
  · intro lis
    simp [bulletsOkOf]
  · intro lis h
    simp [bulletsOkOf, h]
  · intro sp pid l g h1 h2
    unfold check_galaxus_product at h2
    rw [h1] at h2
    injection h2 with h3
    rw [← h3]
    rfl

/-- Witness for `c7_bullets`: a page with exactly 4 qualifying list items
yields `bullets_ok = false`, one with 5 yields `true`. -/
theorem c7_bullets_witness :
    (fourBullets.take 250).countP qualifiesBullet = 4 ∧
    bulletsOkOf fourBullets = false ∧
    bulletsOkOf fiveBullets = true :=
  ⟨by decide, c7_bullets.2.1 fourBullets (by decide), (c7_bullets.1 fiveBullets).mpr (by decide)⟩

/-- Claim C5: `check_toppreise` returns, over the scanned price nodes whose
ancestor container text contains an allowed-vendor pattern, the canonical
(vendor, price) pair with the minimum price; hyphen/domain variants of
babymarkt canonicalize to `Babymarkt`, of babywalz to `Babywalz`, any-case
`Fust` to `Fust`, text matching no allowed pattern to the empty vendor; and
with no recognized offer the result is empty in both fields. -/
theorem c5_vendor_aggregator :
    (∀ nodes, offersOf nodes = [] → check_toppreise nodes = ⟨none, ""⟩) ∧
    (∀ nodes v q, check_toppreise nodes = ⟨some q, v⟩ →
        (v, q) ∈ offersOf nodes ∧ ∀ p ∈ offersOf nodes, q ≤ p.2) ∧
    (∀ nodes, offersOf nodes ≠ [] → ∃ v q, check_toppreise nodes = ⟨some q, v⟩) ∧
    normalize_vendor_from_text "Bester Preis bei baby-markt.ch anzeigen" = "Babymarkt" ∧
    normalize_vendor_from_text "baby-walz Versand morgen" = "Babywalz" ∧
    normalize_vendor_from_text "FUST" = "Fust" ∧
    normalize_vendor_from_text "Angebot von fUsT Schweiz" = "Fust" ∧
    (∀ t, (ALLOWED_VENDOR_PATTERNS.all fun p => !containsSubstr ⟨lowerL t.data⟩ p) = true →
        normalize_vendor_from_text t = "") := by
  refine ⟨?_, ?_, ?_, by decide, by decide, by decide, by decide, ?_⟩
  · intro nodes h
    simp [check_toppreise, h, bestOf]
  · intro nodes v q h
    rcases hb : bestOf (offersOf nodes) with _ | b
    · unfold check_toppreise at h
      rw [hb] at h
      simp at h
    · obtain ⟨v1, q1⟩ := b
      unfold check_toppreise at h
      rw [hb] at h
      have hq : q1 = q := by
        have hpr := congrArg ToppreiseResult.best_price_chf h
        simpa using hpr
      have hv : v1 = v := by
        have hpr := congrArg ToppreiseResult.vendor h
        simpa using hpr
      rw [hq, hv] at hb
      exact (bestOf_spec (offersOf nodes)).2.1 (v, q) hb
  · intro nodes hne
    obtain ⟨b, hb⟩ := (bestOf_spec (offersOf nodes)).2.2 hne
    obtain ⟨v, q⟩ := b
    refine ⟨v, q, ?_⟩
    unfold check_toppreise
    rw [hb]
  · intro t h
    have hnone : ALLOWED_VENDOR_PATTERNS.find?
        (fun p => containsSubstr ⟨lowerL t.data⟩ p) = none := by
      apply List.find?_eq_none.mpr
      intro p hp
      simpa using List.all_eq_true.mp h p hp
    simp [normalize_vendor_from_text, hnone]

/-- Witness for `c5_vendor_aggregator`: on the sample page the Fust offer at
29.90 and the baby-walz offer at 19.90 are recognized, the unknown shop is
excluded, and the minimum recognized offer `(Babywalz, 19.90)` is returned. -/
theorem c5_vendor_aggregator_witness :
    check_toppreise sampleNodes = ⟨some (mkRat 199 10), "Babywalz"⟩ ∧
    ("Babywalz", mkRat 199 10) ∈ offersOf sampleNodes ∧
    ∀ p ∈ offersOf sampleNodes, mkRat 199 10 ≤ p.2 :=
  ⟨by decide,
   (c5_vendor_aggregator.2.1 sampleNodes "Babywalz" (mkRat 199 10) (by decide)).1,
   (c5_vendor_aggregator.2.1 sampleNodes "Babywalz" (mkRat 199 10) (by decide)).2⟩

/-- Claim C8: rows whose identifier cell is empty after normalization (trim
plus collapse of internal whitespace) are skipped by `read_inputs` — they
produce no `InputRow` — and hence produce no entry in `results_by_row`: its
keys are exactly the data rows with a non-empty normalized identifier. -/
theorem c8_skip_empty_rows (ws : Sheet) (headers : List (String × Nat)) (idCol : Nat)
    (h : List.lookup "ID" headers = some idCol) :
    read_inputs ws headers = .ok (inputsOf ws idCol (List.lookup "Keyword" headers)) ∧
    (inputsOf ws idCol (List.lookup "Keyword" headers)).map (fun i => i.row_index) =
      (rowRange ws).filter (fun r => !(normalize_header (ws.cells r idCol) == "")) ∧
    (∀ i ∈ inputsOf ws idCol (List.lookup "Keyword" headers),
        ¬ normalize_header (ws.cells i.row_index idCol) = "") ∧
    (∀ gx rk tp now,
        (runAll gx rk tp now (inputsOf ws idCol (List.lookup "Keyword" headers))).map Prod.fst =
          (rowRange ws).filter (fun r => !(normalize_header (ws.cells r idCol) == ""))) := by
  refine ⟨?_, ?_, ?_, ?_⟩
  · simp [read_inputs, h]
  · exact filterMap_readRow_map_row ws idCol (List.lookup "Keyword" headers) (rowRange ws)
  · intro i hi
    obtain ⟨r, hr, he⟩ := List.mem_filterMap.mp hi
    simp only [readRow] at he
    by_cases hp : normalize_header (ws.cells r idCol) = ""
    · rw [if_pos hp] at he
      exact Option.noConfusion he
    · rw [if_neg hp] at he
      injection he with he2
      subst he2
      exact hp
  · intro gx rk tp now
    simp only [runAll, List.map_map]
    exact filterMap_readRow_map_row ws idCol (List.lookup "Keyword" headers) (rowRange ws)

/-- Witness for `c8_skip_empty_rows`: the spec's end-to-end example — rows
`(4, "12345", "babyphone")` and `(5, "", "")` — yields exactly one
`InputRow`, for row 4; row 5 is skipped entirely. -/
theorem c8_skip_empty_rows_witness :
    read_inputs sampleSheet sampleHeaders =
      .ok (inputsOf sampleSheet 1 (List.lookup "Keyword" sampleHeaders)) ∧
    inputsOf sampleSheet 1 (List.lookup "Keyword" sampleHeaders) =
      [⟨4, "12345", "babyphone"⟩] ∧
    (inputsOf sampleSheet 1 (List.lookup "Keyword" sampleHeaders)).map (fun i => i.row_index) =
      [4] :=
  ⟨(c8_skip_empty_rows sampleSheet sampleHeaders 1 (by decide)).1,
   by decide,
   ((c8_skip_empty_rows sampleSheet sampleHeaders 1 (by decide)).2.1).trans (by decide)⟩

/-- Claim C2: in every interleaving reachable from a batch of `n` waiting
rows, at most 2 rows are in an active (semaphore-holding) extraction state at
once — the `asyncio.Semaphore(2)` guard — and a row can move from its
acquired state to released (`done`) only from step counter `numSteps`, i.e.
only after its three extractor steps, the result recording, and the pacing
sleep have all completed inside the held slot. -/
theorem c2_concurrency_cap (n : Nat) (s : List RowPhase) (h : SemReach (initState n) s) :
    activeCount s ≤ 2 ∧
    (∀ (t : List RowPhase) (i pc : Nat), SemStep s t → s[i]? = some (RowPhase.acquired pc) →
        t[i]? = some RowPhase.done → pc = numSteps) := by
  constructor
  · have h2 : Relation.ReflTransGen SemStep (initState n) s := h
    clear h
    induction h2 with
    | refl => rw [activeCount_init]; omega
    | tail hpre hstep ih => exact semStep_active_le hstep ih
  · intro t i pc hst hs ht
    cases hst with
    | acquire j hj hc =>
        by_cases hij : j = i
        · subst hij
          obtain ⟨hlen, _⟩ := List.getElem?_eq_some_iff.mp hj
          rw [List.getElem?_set_self hlen] at ht
          exact RowPhase.noConfusion (Option.some.injEq .. ▸ ht)
        · rw [List.getElem?_set_ne hij] at ht
          rw [hs] at ht
          exact RowPhase.noConfusion (Option.some.injEq .. ▸ ht)
    | work j pc2 hj hpc =>
        by_cases hij : j = i
        · subst hij
          obtain ⟨hlen, _⟩ := List.getElem?_eq_some_iff.mp hj
          rw [List.getElem?_set_self hlen] at ht
          exact RowPhase.noConfusion (Option.some.injEq .. ▸ ht)
        · rw [List.getElem?_set_ne hij] at ht
          rw [hs] at ht
          exact RowPhase.noConfusion (Option.some.injEq .. ▸ ht)
    | release j hj =>
        by_cases hij : j = i
        · subst hij
          rw [hj] at hs
          have hac : RowPhase.acquired numSteps = RowPhase.acquired pc :=
            Option.some.injEq .. ▸ hs
          injection hac with hval
          exact hval.symm
        · rw [List.getElem?_set_ne hij] at ht
          rw [hs] at ht
          exact RowPhase.noConfusion (Option.some.injEq .. ▸ ht)

/-- Witness for `c2_concurrency_cap`: in a batch of 3 rows, the state where
two rows have acquired the semaphore is reachable, saturates the gate with
exactly 2 active rows, and still satisfies the bound. -/
theorem c2_concurrency_cap_witness :
    activeCount twoStarted2 = 2 ∧ activeCount twoStarted2 ≤ 2 := by
  have h1 : SemStep (initState 3) twoStarted1 :=
    SemStep.acquire (initState 3) 0 rfl (by decide)
  have h2 : SemStep twoStarted1 twoStarted2 :=
    SemStep.acquire twoStarted1 1 rfl (by decide)
  have hr : SemReach (initState 3) twoStarted2 :=
    Relation.ReflTransGen.tail (Relation.ReflTransGen.tail Relation.ReflTransGen.refl h1) h2
  exact ⟨by decide, (c2_concurrency_cap 3 twoStarted2 hr).1⟩

/-- Claim C9: `write_outputs` writes only the designated output columns
(availability text, the three ja/nein flags, the two prices, the vendor) into
the result rows: a cell in a row without a result, or in a column that none
of the designated headers resolves to, is left unchanged, and every cell that
does change receives one of the seven `rowVals` of that row's `RowResult` — a
list in which the keyword rank does not occur.  The rank stays only in the
in-memory result map, where `applyRank` stored it. -/
theorem c9_output_frame :
    (∀ (f : Nat → Nat → Option PyVal) (headers : List (String × Nat))
        (results : List (Nat × RowResult)) (r c : Nat), (∀ res, (r, res) ∉ results) →
        write_outputs f headers results r c = f r c) ∧
    (∀ (f : Nat → Nat → Option PyVal) (headers : List (String × Nat))
        (results : List (Nat × RowResult)) (r c : Nat),
        (∀ hn ∈ outputHeaderNames, List.lookup hn headers ≠ some c) →
        write_outputs f headers results r c = f r c) ∧
    (∀ (f : Nat → Nat → Option PyVal) (headers : List (String × Nat))
        (results : List (Nat × RowResult)) (r c : Nat),
        write_outputs f headers results r c = f r c ∨
          ∃ res, (r, res) ∈ results ∧ ∃ v ∈ rowVals res,
            write_outputs f headers results r c = some v) ∧
    (∀ (res : RowResult) (rkr : RankResult), (applyRank res rkr).keyword_rank = rkr.rank) := by
  refine ⟨?_, ?_, ?_, fun _ _ => rfl⟩
  · intro f headers results r c h
    exact write_outputs_frame_row results f headers r c h
  · intro f headers results r c h
    exact write_outputs_frame_col results f headers r c h
  · intro f headers results r c
    exact write_outputs_origin results f headers r c

/-- Witness for `c9_output_frame`: with one result in row 4 and `Available`
mapped to column 7, a cell of a row without a result (9, 7) and a cell of a
non-designated column (4, 5) both keep their previous value. -/
theorem c9_output_frame_witness :
    write_outputs sampleCells sampleOutHeaders [(4, sampleResult)] 9 7 = sampleCells 9 7 ∧
    write_outputs sampleCells sampleOutHeaders [(4, sampleResult)] 4 5 = sampleCells 4 5 :=
  ⟨c9_output_frame.1 sampleCells sampleOutHeaders [(4, sampleResult)] 9 7
      (by intro res hmem; simp at hmem),
   c9_output_frame.2.1 sampleCells sampleOutHeaders [(4, sampleResult)] 4 5 (by decide)⟩

end Produkteliste
